import Mathlib

/-!
# Verification of the stream reducer of src/components/ChatWindow.vue

This file gives a shallow embedding of the streaming code of the chat
client: the handleStream reducer, the slice of sendMessage that wraps
it, and the JavaScript platform pieces they rely on (JSON.parse,
property access, truthiness, string splitting).  Chunks are
modelled as decoded strings (lists of characters); the observable side
effects of the reducer (mutating the last message, saveMessages,
scrollToBottom, console.error, textToSpeech) are recorded as an
event trace.
-/

namespace ChatWindow

/-- A JSON value as produced by JSON.parse.  Numbers are modelled as
integers: the modelled fragment covers the payloads the streaming API
uses (objects, arrays, strings, integers, booleans, null); floating
point literals and unicode escapes are outside the fragment and are treated
as parse failures. -/
inductive JSVal where
  | null : JSVal
  | bool : Bool → JSVal
  | num : Int → JSVal
  | str : String → JSVal
  | arr : List JSVal → JSVal
  | obj : List (String × JSVal) → JSVal

/-- Skip JSON whitespace (space, tab, carriage return, newline). -/
def skipWs : List Char → List Char
  | c :: rest =>
    if c = ' ' ∨ c = '\t' ∨ c = '\r' ∨ c = '\n' then skipWs rest else c :: rest
  | [] => []

/-- Parse the body of a JSON string literal after the opening quote,
returning the decoded characters and the remainder after the closing
quote. -/
def parseStrChars : List Char → Option (List Char × List Char)
  | '"' :: rest => some ([], rest)
  | '\\' :: c :: rest =>
    let esc : Option Char :=
      if c = '"' then some '"'
      else if c = '\\' then some '\\'
      else if c = '/' then some '/'
      else if c = 'n' then some '\n'
      else if c = 't' then some '\t'
      else if c = 'r' then some '\r'
      else if c = 'b' then some (Char.ofNat 8)
      else if c = 'f' then some (Char.ofNat 12)
      else none
    match esc with
    | some e => (parseStrChars rest).map fun p => (e :: p.1, p.2)
    | none => none
  | c :: rest => (parseStrChars rest).map fun p => (c :: p.1, p.2)
  | [] => none

/-- Split a character list into its leading run of decimal digits and
the rest. -/
def takeDigits : List Char → List Char × List Char
  | c :: rest =>
    if c.isDigit then
      let p := takeDigits rest
      (c :: p.1, p.2)
    else ([], c :: rest)
  | [] => ([], [])

/-- Decimal digits to a natural number. -/
def digitsToNat (ds : List Char) : Nat :=
  ds.foldl (fun n c => n * 10 + (c.toNat - '0'.toNat)) 0

mutual

/-- Parse one JSON value.  The fuel argument only bounds recursion
depth; the top-level entry point supplies enough fuel for any input. -/
def parseVal : Nat → List Char → Option (JSVal × List Char)
  | 0, _ => none
  | fuel + 1, cs =>
    match skipWs cs with
    | 'n' :: 'u' :: 'l' :: 'l' :: rest => some (.null, rest)
    | 't' :: 'r' :: 'u' :: 'e' :: rest => some (.bool true, rest)
    | 'f' :: 'a' :: 'l' :: 's' :: 'e' :: rest => some (.bool false, rest)
    | '"' :: rest =>
      (parseStrChars rest).map fun p => (.str (String.mk p.1), p.2)
    | '[' :: rest =>
      (match skipWs rest with
       | ']' :: rest2 => some (.arr [], rest2)
       | other => (parseElems fuel other).map fun p => (.arr p.1, p.2))
    | '{' :: rest =>
      (match skipWs rest with
       | '}' :: rest2 => some (.obj [], rest2)
       | other => (parseMembers fuel other).map fun p => (.obj p.1, p.2))
    | '-' :: rest =>
      (match takeDigits rest with
       | ([], _) => none
       | (ds, rest2) => some (.num (-(digitsToNat ds : Int)), rest2))
    | c :: rest =>
      if c.isDigit then
        let p := takeDigits (c :: rest)
        some (.num (digitsToNat p.1 : Int), p.2)
      else none
    | [] => none

/-- Parse a nonempty comma-separated list of array elements up to and
including the closing bracket. -/
def parseElems : Nat → List Char → Option (List JSVal × List Char)
  | 0, _ => none
  | fuel + 1, cs => do
    let (v, r) ← parseVal fuel cs
    match skipWs r with
    | ',' :: r2 =>
      let (vs, r3) ← parseElems fuel r2
      some (v :: vs, r3)
    | ']' :: r2 => some ([v], r2)
    | _ => none

/-- Parse a nonempty comma-separated list of object members up to and
including the closing brace. -/
def parseMembers : Nat → List Char → Option (List (String × JSVal) × List Char)
  | 0, _ => none
  | fuel + 1, cs =>
    match skipWs cs with
    | '"' :: rest => do
      let (k, r) ← parseStrChars rest
      match skipWs r with
      | ':' :: r2 => do
        let (v, r3) ← parseVal fuel r2
        match skipWs r3 with
        | ',' :: r4 =>
          let (ms, r5) ← parseMembers fuel r4
          some ((String.mk k, v) :: ms, r5)
        | '}' :: r4 => some ([(String.mk k, v)], r4)
        | _ => none
      | _ => none
    | _ => none

end

/-- Models JSON.parse on a character list: parse one value and require only
whitespace to remain; the value none models the SyntaxError exception. -/
def jsonParse (cs : List Char) : Option JSVal :=
  match parseVal (cs.length + 1) cs with
  | some (v, rest) => if skipWs rest = [] then some v else none
  | none => none

/-- Object member lookup as JSON.parse builds objects: with duplicate
keys the last occurrence wins. -/
def jlookup : List (String × JSVal) → String → Option JSVal
  | [], _ => none
  | (k, v) :: rest, key =>
    match jlookup rest key with
    | some r => some r
    | none => if k = key then some v else none

/-- JavaScript property access base.key on a JSON-derived value.
here Option JSVal models a value that may be undefined (none); the
Except layer models the TypeError thrown when the base is
undefined or null.  Non-object bases yield `undefined` for the
(non-numeric, non-`length`) keys the reducer uses. -/
def getProp : Option JSVal → String → Except Unit (Option JSVal)
  | none, _ => .error ()
  | some .null, _ => .error ()
  | some (.obj fs), key => .ok (jlookup fs key)
  | some _, _ => .ok none

/-- JavaScript index access base[i] on a JSON-derived value: throws on
undefined and null, indexes arrays (and, character-wise, strings),
treats the index as a string key on plain objects, and yields
`undefined` otherwise. -/
def getIndex : Option JSVal → Nat → Except Unit (Option JSVal)
  | none, _ => .error ()
  | some .null, _ => .error ()
  | some (.arr xs), i => .ok (xs.get? i)
  | some (.str s), i => .ok ((s.data.get? i).map fun c => .str (String.mk [c]))
  | some (.obj fs), i => .ok (jlookup fs (toString i))
  | some _, _ => .ok none

/-- JavaScript truthiness of a possibly-undefined value, as tested by
the if (content) guard. -/
def truthy : Option JSVal → Bool
  | none => false
  | some .null => false
  | some (.bool b) => b
  | some (.num n) => n ≠ 0
  | some (.str s) => s ≠ ""
  | some (.arr _) => true
  | some (.obj _) => true

mutual

/-- JavaScript string coercion, as applied by the append to currentMessage.
Only the string case is reachable from payloads of the streaming API; the
other cases model `String(v)` on the same fragment. -/
def jsToString : JSVal → String
  | .null => "null"
  | .bool true => "true"
  | .bool false => "false"
  | .num n => toString n
  | .str s => s
  | .arr xs => jsToStringArr xs
  | .obj _ => "[object Object]"

/-- Models Array.prototype.toString: elements joined with commas. -/
def jsToStringArr : List JSVal → String
  | [] => ""
  | [x] => jsToString x
  | x :: y :: rest => jsToString x ++ "," ++ jsToStringArr (y :: rest)

end

/-- Evaluation of the chain parsed.choices[0].delta.content after
JSON.parse(data): the Except layer collects both the SyntaxError
of JSON.parse and any TypeError of the property chain — exactly what
the try/catch around lines 220 to 228 of ChatWindow.vue intercepts. -/
def extractContent (data : List Char) : Except Unit (Option JSVal) :=
  match jsonParse data with
  | none => .error ()
  | some parsed => do
    let choices ← getProp (some parsed) "choices"
    let c0 ← getIndex choices 0
    let delta ← getProp c0 "delta"
    getProp delta "content"

/-- A chat message (the ChatMessage interface of ChatWindow.vue). -/
structure ChatMessage where
  role : String
  content : String
  isPlaying : Option Bool := none
  audioUrl : Option String := none
  deriving DecidableEq, Repr

/-- One observable action of `handleStream`, in program order:
mutating the content of the last message, calling saveMessages (recording the message
list it writes to localStorage), calling scrollToBottom,
logging a per-frame parse failure with console.error,
logging a fatal read failure with console.error, and calling textToSpeech on the final text at
completion. -/
inductive StreamEvent where
  | update (buffer : String)
  | save (msgs : List ChatMessage)
  | scroll
  | logParseError
  | logReadError
  | tts (text : String)
  deriving DecidableEq, Repr

/-- Mutate the content field of the last message in place
(the assignment to the content field of the last element of
messages.value).
On the empty list the JavaScript assignment would throw inside the inner
try block; the reducer is only ever run after a placeholder was pushed, so
the list is never empty there. -/
def setLastContent (c : String) : List ChatMessage → List ChatMessage
  | [] => []
  | [m] => [{ m with content := c }]
  | m :: m2 :: rest => m :: setLastContent c (m2 :: rest)

/-- The running state of the reducer: the accumulated currentMessage
buffer, the messages.value list, and the trace of observable events so
far. -/
structure StreamState where
  buf : String
  msgs : List ChatMessage
  events : List StreamEvent
  deriving Repr

/-- The body of the line loop in handleStream: lines
without the data marker are ignored; the [DONE] sentinel is
skipped with continue; a payload whose parse or property chain throws
is logged and skipped; a falsy extracted content is ignored; a truthy
content is appended to the buffer, written into the last message, and
followed by saveMessages and scrollToBottom. -/
def processLine (st : StreamState) (line : List Char) : StreamState :=
  if "data: ".data.isPrefixOf line then
    let data := line.drop 6
    if data = "[DONE]".data then st
    else
      match extractContent data with
      | .error _ => { st with events := st.events ++ [.logParseError] }
      | .ok content =>
        if truthy content then
          let newBuf := st.buf ++ jsToString (content.getD .null)
          let newMsgs := setLastContent newBuf st.msgs
          { buf := newBuf
            msgs := newMsgs
            events := st.events ++ [.update newBuf, .save newMsgs, .scroll] }
        else st
  else st

/-- Models String.prototype.split on the newline character. -/
def splitNl : List Char → List (List Char)
  | [] => [[]]
  | '\n' :: rest => [] :: splitNl rest
  | c :: rest =>
    match splitNl rest with
    | l :: ls => (c :: l) :: ls
    | [] => [c :: []]

/-- One iteration of the read loop on a delivered chunk:
split the chunk on newlines and run the line loop.  Chunks are
modelled after TextDecoder decoding, as text. -/
def processChunk (st : StreamState) (chunk : String) : StreamState :=
  (splitNl chunk.data).foldl processLine st

/-- The byte source behind the reader: the chunks its successive read
calls deliver, and whether the read after them rejects (readFails)
instead of resolving as done. -/
structure Source where
  chunks : List String
  readFails : Bool

/-- The external environment of textToSpeech: whether the audio element
(audioPlayer.value) is present, and the outcome of the speech fetch —
some url when the request and blob succeed and URL.createObjectURL
yields url, none when the fetch rejects or the response is not ok (the
catch clause then alerts and mutates nothing). -/
structure TtsEnv where
  playerPresent : Bool
  fetchResult : Option String

/-- JavaScript truthiness of the optional isPlaying field. -/
def truthyFlag : Option Bool → Bool
  | some b => b
  | none => false

/-- JavaScript truthiness of the optional audioUrl field. -/
def truthyStr : Option String → Bool
  | some s => s ≠ ""
  | none => false

/-- Set the isPlaying field of the message at an index, leaving the
rest of the list unchanged. -/
def setPlayingAt (v : Bool) : Nat → List ChatMessage → List ChatMessage
  | _, [] => []
  | 0, m :: rest => { m with isPlaying := some v } :: rest
  | i + 1, m :: rest => m :: setPlayingAt v i rest

/-- Set the audioUrl field of the message at an index (the assignment
messages.value[messageIndex].audioUrl = audioUrl in textToSpeech). -/
def setAudioUrlAt (url : String) : Nat → List ChatMessage → List ChatMessage
  | _, [] => []
  | 0, m :: rest => { m with audioUrl := some url } :: rest
  | i + 1, m :: rest => m :: setAudioUrlAt url i rest

/-- The forEach loop of playAudio starting at position j: every message
other than index i whose isPlaying is truthy gets its flag cleared via
stopPlaying. -/
def clearPlayingExcept (i : Nat) : Nat → List ChatMessage → List ChatMessage
  | _, [] => []
  | j, m :: rest =>
    (if truthyFlag m.isPlaying ∧ j ≠ i then { m with isPlaying := some false }
     else m) :: clearPlayingExcept i (j + 1) rest

/-- Models stopPlaying(messageIndex) restricted to its effect on the
message list: when the audio element is present, clear the isPlaying
flag of the message at the index (the pause, currentTime reset and the
global flag are not part of the message list). -/
def stopPlaying (playerPresent : Bool) (i : Nat)
    (msgs : List ChatMessage) : List ChatMessage :=
  if playerPresent then setPlayingAt false i msgs else msgs

/-- Models playAudio(audioUrl, messageIndex) restricted to its effect
on the message list: the forEach clears isPlaying on every other
playing message (each clear guarded, inside stopPlaying, by the audio
element being present), then, when the element is present, the message
at the index is marked playing. -/
def playAudio (playerPresent : Bool) (i : Nat)
    (msgs : List ChatMessage) : List ChatMessage :=
  if playerPresent then setPlayingAt true i (clearPlayingExcept i 0 msgs)
  else msgs

/-- Models textToSpeech(text, messageIndex) restricted to its effect on
the message list: if the indexed message is playing, stop it; else if
it already has an audio url, play it; else fetch speech — on failure
the catch alerts and mutates nothing, on success the audio url is
stored on the message and it is played.  An out-of-range index makes
the first property access throw inside the try, so the list is
unchanged. -/
def textToSpeech (env : TtsEnv) (i : Nat)
    (msgs : List ChatMessage) : List ChatMessage :=
  match msgs.get? i with
  | none => msgs
  | some m =>
    if truthyFlag m.isPlaying then stopPlaying env.playerPresent i msgs
    else if truthyStr m.audioUrl then playAudio env.playerPresent i msgs
    else
      match env.fetchResult with
      | none => msgs
      | some url => playAudio env.playerPresent i (setAudioUrlAt url i msgs)

/-- Models handleStream(reader) with initial message list `msgs`: fold the
chunks through the line loop; if the next read rejects, the surrounding
try/catch block logs the failure and the function returns normally;
if it resolves as done, the reducer itself awaits
textToSpeech on currentMessage and the last message index before
breaking out — applying the message-list effects of textToSpeech
(playback flags and audio resource reference) under the given
environment.  In either case no exception escapes handleStream. -/
def handleStream (msgs : List ChatMessage) (src : Source)
    (env : TtsEnv) : StreamState :=
  let st := src.chunks.foldl processChunk ⟨"", msgs, []⟩
  if src.readFails then { st with events := st.events ++ [.logReadError] }
  else
    { st with
      msgs := textToSpeech env (st.msgs.length - 1) st.msgs
      events := st.events ++ [.tts st.buf] }

/-- The placeholder pushed by sendMessage right before streaming: an
assistant message with empty content. -/
def placeholderAssistant : ChatMessage :=
  { role := "assistant", content := "" }

/-- The streaming phase of sendMessage after a successful fetch:
push the placeholder assistant message, then run handleStream on the
response body.  Because handleStream catches read errors internally,
no exception reaches the catch clause of sendMessage from this phase. -/
def sendMessageStreamPhase (msgs : List ChatMessage) (src : Source)
    (env : TtsEnv) : StreamState :=
  handleStream (msgs ++ [placeholderAssistant]) src env

/-- The buffers carried by the update events of a trace, in order. -/
def updateBuffers : List StreamEvent → List String
  | [] => []
  | .update b :: rest => b :: updateBuffers rest
  | _ :: rest => updateBuffers rest

/-- The content of the last message of a list, if any. -/
def lastContent : List ChatMessage → Option String
  | [] => none
  | [m] => some m.content
  | _ :: m2 :: rest => lastContent (m2 :: rest)

/-- One buffer extends another: the second is the first with some text
appended. -/
def ExtendsTo (a b : String) : Prop := ∃ t, a ++ t = b

/-- Traces in which every update event is immediately followed by
exactly two external calls — a save of a message list whose last content
is the updated buffer, then a scroll — and in which save and scroll
occur nowhere else. -/
inductive PersistScrollDisciplined : List StreamEvent → Prop
  | nil : PersistScrollDisciplined []
  | upd (b : String) (m : List ChatMessage) (rest : List StreamEvent) :
      lastContent m = some b → PersistScrollDisciplined rest →
      PersistScrollDisciplined (.update b :: .save m :: .scroll :: rest)
  | logParse (rest : List StreamEvent) :
      PersistScrollDisciplined rest →
      PersistScrollDisciplined (.logParseError :: rest)
  | logRead (rest : List StreamEvent) :
      PersistScrollDisciplined rest →
      PersistScrollDisciplined (.logReadError :: rest)
  | tts (s : String) (rest : List StreamEvent) :
      PersistScrollDisciplined rest →
      PersistScrollDisciplined (.tts s :: rest)

/-! ## Structural lemmas about the reducer -/

/-- Each line either leaves the state unchanged, only logs a parse
error, or appends a delta to the buffer, writes the new buffer into the
last message, and emits exactly the triple update, save, scroll. -/
theorem processLine_cases (st : StreamState) (l : List Char) :
    processLine st l = st ∨
    processLine st l = { st with events := st.events ++ [.logParseError] } ∨
    ∃ d, processLine st l =
      { buf := st.buf ++ d
        msgs := setLastContent (st.buf ++ d) st.msgs
        events := st.events ++
          [.update (st.buf ++ d), .save (setLastContent (st.buf ++ d) st.msgs),
           .scroll] } := by
  unfold processLine
  dsimp only
  split
  · split
    · exact Or.inl rfl
    · split
      · exact Or.inr (Or.inl rfl)
      · split
        · exact Or.inr (Or.inr ⟨_, rfl⟩)
        · exact Or.inl rfl
  · exact Or.inl rfl

/-- The update buffers of a concatenation of traces. -/
theorem updateBuffers_append (a b : List StreamEvent) :
    updateBuffers (a ++ b) = updateBuffers a ++ updateBuffers b := by
  induction a with
  | nil => rfl
  | cons e rest ih => cases e <;> simp [updateBuffers, ih]

/-- The last element of a list of strings, with a default for the empty
list. -/
def lastOr (d : String) : List String → String
  | [] => d
  | x :: xs => lastOr x xs

/-- A list of buffers each of which extends the previous one (the first
extending the given base): the shape of a monotonically growing
sequence of full-buffer snapshots. -/
inductive GrowingFrom : String → List String → Prop
  | nil (b : String) : GrowingFrom b []
  | cons (b t : String) (rest : List String) :
      GrowingFrom (b ++ t) rest → GrowingFrom b ((b ++ t) :: rest)

theorem lastOr_snoc (d x : String) (us : List String) :
    lastOr d (us ++ [x]) = x := by
  induction us generalizing d with
  | nil => rfl
  | cons u us ih => exact ih u

theorem GrowingFrom_snoc {b : String} {us : List String} (h : GrowingFrom b us)
    (t : String) : GrowingFrom b (us ++ [lastOr b us ++ t]) := by
  induction h with
  | nil b => exact .cons b t [] (.nil _)
  | cons b s rest _ ih => exact .cons b s _ ih

/-- Every member of a growing sequence extends the base. -/
theorem GrowingFrom_extends {b : String} {us : List String}
    (h : GrowingFrom b us) : ∀ u ∈ us, ExtendsTo b u := by
  induction h with
  | nil b => intro u hu; cases hu
  | cons b t rest _ ih =>
    intro u hu
    rcases List.mem_cons.mp hu with h1 | h2
    · exact ⟨t, h1.symm⟩
    · rcases ih u h2 with ⟨s, hs⟩
      exact ⟨t ++ s, by rw [← hs, String.append_assoc]⟩

/-- Preservation of a state predicate along the line loop. -/
theorem foldl_processLine_invariant {P : StreamState → Prop}
    (h : ∀ st l, P st → P (processLine st l)) (ls : List (List Char)) :
    ∀ st : StreamState, P st → P (ls.foldl processLine st) := by
  induction ls with
  | nil => exact fun _ hp => hp
  | cons l ls ih => exact fun st hp => ih _ (h st l hp)

/-- Preservation of a state predicate along the chunk loop. -/
theorem foldl_processChunk_invariant {P : StreamState → Prop}
    (h : ∀ st l, P st → P (processLine st l)) (chunks : List String) :
    ∀ st : StreamState, P st → P (chunks.foldl processChunk st) := by
  induction chunks with
  | nil => exact fun _ hp => hp
  | cons c cs ih =>
    exact fun st hp => ih _ (foldl_processLine_invariant h _ _ hp)

/-- Writing the last content preserves the length of the list. -/
theorem setLastContent_length (c : String) (l : List ChatMessage) :
    (setLastContent c l).length = l.length := by
  induction l with
  | nil => rfl
  | cons m rest ih =>
    cases rest with
    | nil => rfl
    | cons m2 rest2 => simpa [setLastContent] using ih

/-- Writing the last content on a nonempty list yields a nonempty
list. -/
theorem setLastContent_cons_ne_nil (c : String) (m : ChatMessage)
    (rest : List ChatMessage) : setLastContent c (m :: rest) ≠ [] := by
  cases rest <;> simp [setLastContent]

/-- Writing the last content touches no message before the last one. -/
theorem setLastContent_dropLast (c : String) (l : List ChatMessage) :
    (setLastContent c l).dropLast = l.dropLast := by
  induction l with
  | nil => rfl
  | cons m rest ih =>
    cases rest with
    | nil => rfl
    | cons m2 rest2 =>
      simp only [setLastContent]
      rw [List.dropLast_cons_of_ne_nil (setLastContent_cons_ne_nil c m2 rest2),
        List.dropLast_cons_of_ne_nil (List.cons_ne_nil m2 rest2), ih]

/-- Writing the last content preserves every role. -/
theorem setLastContent_map_role (c : String) (l : List ChatMessage) :
    (setLastContent c l).map (fun m => m.role) = l.map (fun m => m.role) := by
  induction l with
  | nil => rfl
  | cons m rest ih =>
    cases rest with
    | nil => rfl
    | cons m2 rest2 => simpa [setLastContent] using ih

/-- Writing the last content makes it the last content. -/
theorem lastContent_setLastContent (c : String) (l : List ChatMessage)
    (h : l ≠ []) : lastContent (setLastContent c l) = some c := by
  induction l with
  | nil => exact absurd rfl h
  | cons m rest ih =>
    cases rest with
    | nil => rfl
    | cons m2 rest2 =>
      have hne := setLastContent_cons_ne_nil c m2 rest2
      have hprev := ih (List.cons_ne_nil m2 rest2)
      simp only [setLastContent]
      cases hsc : setLastContent c (m2 :: rest2) with
      | nil => exact absurd hsc hne
      | cons a as =>
        rw [hsc] at hprev
        simpa [lastContent] using hprev

/-- Writing the last content keeps the list nonempty. -/
theorem setLastContent_ne_nil (c : String) (l : List ChatMessage)
    (h : l ≠ []) : setLastContent c l ≠ [] := by
  cases l with
  | nil => exact absurd rfl h
  | cons m rest => exact setLastContent_cons_ne_nil c m rest

/-- Discipline of traces is preserved under concatenation. -/
theorem PersistScrollDisciplined_append {a b : List StreamEvent}
    (ha : PersistScrollDisciplined a) (hb : PersistScrollDisciplined b) :
    PersistScrollDisciplined (a ++ b) := by
  induction ha with
  | nil => exact hb
  | upd u m rest h _ ih => exact .upd u m _ h ih
  | logParse rest _ ih => exact .logParse _ ih
  | logRead rest _ ih => exact .logRead _ ih
  | tts s rest _ ih => exact .tts s _ ih

/-- A line reads and writes only the buffer and the message list; the
events already recorded are only appended to. -/
theorem processLine_factor (st : StreamState) (l : List Char) :
    processLine st l =
      { buf := (processLine ⟨st.buf, st.msgs, []⟩ l).buf
        msgs := (processLine ⟨st.buf, st.msgs, []⟩ l).msgs
        events := st.events ++ (processLine ⟨st.buf, st.msgs, []⟩ l).events } := by
  rcases st with ⟨b, m, e⟩
  unfold processLine
  dsimp only
  split
  · split
    · simp
    · split
      · simp
      · split <;> simp
  · simp

/-- The buffer and message list reached by the line loop do not depend
on the events recorded beforehand. -/
theorem foldl_processLine_buf_msgs (ls : List (List Char)) :
    ∀ (b : String) (m : List ChatMessage) (e₁ e₂ : List StreamEvent),
      (ls.foldl processLine ⟨b, m, e₁⟩).buf =
        (ls.foldl processLine ⟨b, m, e₂⟩).buf ∧
      (ls.foldl processLine ⟨b, m, e₁⟩).msgs =
        (ls.foldl processLine ⟨b, m, e₂⟩).msgs := by
  induction ls with
  | nil => exact fun _ _ _ _ => ⟨rfl, rfl⟩
  | cons l ls ih =>
    intro b m e₁ e₂
    rw [List.foldl_cons, List.foldl_cons, processLine_factor ⟨b, m, e₁⟩ l,
      processLine_factor ⟨b, m, e₂⟩ l]
    exact ih _ _ _ _

/-- The role and text content of a message: the two fields the audio
helpers never touch. -/
def roleContent (m : ChatMessage) : String × String := (m.role, m.content)

theorem setPlayingAt_roleContent (v : Bool) (i : Nat) (l : List ChatMessage) :
    (setPlayingAt v i l).map roleContent = l.map roleContent := by
  induction l generalizing i with
  | nil => cases i <;> rfl
  | cons m rest ih =>
    cases i with
    | zero => simp [setPlayingAt, roleContent]
    | succ n => simp [setPlayingAt, roleContent, ih]

theorem setAudioUrlAt_roleContent (url : String) (i : Nat)
    (l : List ChatMessage) :
    (setAudioUrlAt url i l).map roleContent = l.map roleContent := by
  induction l generalizing i with
  | nil => cases i <;> rfl
  | cons m rest ih =>
    cases i with
    | zero => simp [setAudioUrlAt, roleContent]
    | succ n => simp [setAudioUrlAt, roleContent, ih]

theorem clearPlayingExcept_roleContent (i : Nat) (l : List ChatMessage) :
    ∀ j : Nat, (clearPlayingExcept i j l).map roleContent =
      l.map roleContent := by
  induction l with
  | nil => intro j; rfl
  | cons m rest ih =>
    intro j
    simp only [clearPlayingExcept, List.map, ih]
    congr 1
    split <;> rfl

theorem stopPlaying_roleContent (p : Bool) (i : Nat) (l : List ChatMessage) :
    (stopPlaying p i l).map roleContent = l.map roleContent := by
  unfold stopPlaying
  split
  · rw [setPlayingAt_roleContent]
  · rfl

theorem playAudio_roleContent (p : Bool) (i : Nat) (l : List ChatMessage) :
    (playAudio p i l).map roleContent = l.map roleContent := by
  unfold playAudio
  split
  · rw [setPlayingAt_roleContent, clearPlayingExcept_roleContent]
  · rfl

/-- The completion-time audio call never changes a role or a text
content. -/
theorem textToSpeech_roleContent (env : TtsEnv) (i : Nat)
    (l : List ChatMessage) :
    (textToSpeech env i l).map roleContent = l.map roleContent := by
  unfold textToSpeech
  split
  · rfl
  · split
    · rw [stopPlaying_roleContent]
    · split
      · rw [playAudio_roleContent]
      · split
        · rfl
        · rw [playAudio_roleContent, setAudioUrlAt_roleContent]

theorem map_role_of_roleContent {l₁ l₂ : List ChatMessage}
    (h : l₁.map roleContent = l₂.map roleContent) :
    l₁.map (fun m => m.role) = l₂.map (fun m => m.role) := by
  have h2 := congrArg (List.map Prod.fst) h
  simpa [List.map_map, Function.comp, roleContent] using h2

theorem map_content_of_roleContent {l₁ l₂ : List ChatMessage}
    (h : l₁.map roleContent = l₂.map roleContent) :
    l₁.map (fun m => m.content) = l₂.map (fun m => m.content) := by
  have h2 := congrArg (List.map Prod.snd) h
  simpa [List.map_map, Function.comp, roleContent] using h2

theorem length_of_roleContent {l₁ l₂ : List ChatMessage}
    (h : l₁.map roleContent = l₂.map roleContent) :
    l₁.length = l₂.length := by
  have h2 := congrArg List.length h
  simpa using h2

theorem dropLast_map_content_of_roleContent {l₁ l₂ : List ChatMessage}
    (h : l₁.map roleContent = l₂.map roleContent) :
    l₁.dropLast.map (fun m => m.content) =
      l₂.dropLast.map (fun m => m.content) := by
  have h3 := congrArg List.dropLast (map_content_of_roleContent h)
  simpa [List.map_dropLast] using h3

/-! ## The claims -/

/-- C1: chunking invariance fails on the code.  The reducer keeps no
carry-over partial line across chunk boundaries: it splits each decoded
chunk on newlines independently.  Delivering the single frame carrying
the delta Hi split mid-line as two chunks loses the delta entirely
(first fragment fails to parse and is skipped, second fragment lacks the
data marker), while the same bytes as one chunk accumulate Hi. -/
theorem chunking_invariance_fails_on_midline_split :
    (handleStream [placeholderAssistant]
      ⟨["data: \x7b\"choi",
        "ces\":[\x7b\"delta\":\x7b\"content\":\"Hi\"\x7d\x7d]\x7d\n"],
        false⟩ ⟨false, none⟩).buf = "" ∧
    (handleStream [placeholderAssistant]
      ⟨["data: \x7b\"choices\":[\x7b\"delta\":\x7b\"content\":\"Hi\"\x7d\x7d]\x7d\n"],
        false⟩ ⟨false, none⟩).buf = "Hi" ∧
    (handleStream [placeholderAssistant]
      ⟨["data: \x7b\"choi",
        "ces\":[\x7b\"delta\":\x7b\"content\":\"Hi\"\x7d\x7d]\x7d\n"],
        false⟩ ⟨false, none⟩).buf ≠
    (handleStream [placeholderAssistant]
      ⟨["data: \x7b\"choices\":[\x7b\"delta\":\x7b\"content\":\"Hi\"\x7d\x7d]\x7d\n"],
        false⟩ ⟨false, none⟩).buf := by
  refine ⟨rfl, rfl, ?_⟩
  intro h
  have h2 : ("" : String) = "Hi" := h
  exact absurd h2 (by decide)

/-- C2 counterexample: a source whose read fails before any frame does
NOT propagate an error out of the reducer, and the placeholder assistant
message pushed by sendMessage is NOT removed: the read failure is caught
inside handleStream, which logs it and returns normally, so the catch
clause of sendMessage never runs during the streaming phase. -/
theorem read_error_not_propagated_placeholder_kept :
    (sendMessageStreamPhase [{ role := "user", content := "hi" }]
      ⟨[], true⟩ ⟨false, none⟩).msgs =
      [{ role := "user", content := "hi" }, placeholderAssistant] ∧
    updateBuffers (sendMessageStreamPhase [{ role := "user", content := "hi" }]
      ⟨[], true⟩ ⟨false, none⟩).events = [] ∧
    (sendMessageStreamPhase [{ role := "user", content := "hi" }]
      ⟨[], true⟩ ⟨false, none⟩).events = [.logReadError] :=
  ⟨rfl, rfl, rfl⟩

/-- C2 amended: a fatal read error is caught and logged inside
handleStream, which returns normally; no error is propagated to
sendMessage from the streaming phase and the placeholder assistant
message is kept.  A source that errors before any frame yields zero
update events, zero propagated errors, one logged read error, and an
empty final buffer. -/
theorem read_error_logged_and_swallowed (msgs : List ChatMessage)
    (chunks : List String) (env : TtsEnv) :
    (handleStream msgs ⟨chunks, true⟩ env).events =
      (chunks.foldl processChunk ⟨"", msgs, []⟩).events ++ [.logReadError] ∧
    (sendMessageStreamPhase msgs ⟨[], true⟩ env).events = [.logReadError] ∧
    (sendMessageStreamPhase msgs ⟨[], true⟩ env).msgs =
      msgs ++ [placeholderAssistant] ∧
    (sendMessageStreamPhase msgs ⟨[], true⟩ env).buf = "" :=
  ⟨rfl, rfl, rfl, rfl⟩

/-- C3: a data-prefixed line whose payload fails to parse (either
JSON.parse throws or the property chain does) is skipped without
aborting the stream and without changing the accumulated buffer or the
message list: the lines after it produce exactly the buffer and message
list they would produce were the malformed line absent. -/
theorem malformed_frame_skipped (st : StreamState) (l : List Char)
    (hpre : "data: ".data.isPrefixOf l = true)
    (herr : extractContent (l.drop 6) = .error ())
    (ls : List (List Char)) :
    ((l :: ls).foldl processLine st).buf = (ls.foldl processLine st).buf ∧
    ((l :: ls).foldl processLine st).msgs = (ls.foldl processLine st).msgs := by
  have hline : processLine st l =
      { st with events := st.events ++ [.logParseError] } ∨
      processLine st l = st := by
    unfold processLine
    dsimp only
    rw [if_pos hpre]
    by_cases hd : l.drop 6 = "[DONE]".data
    · rw [if_pos hd]
      exact Or.inr rfl
    · rw [if_neg hd, herr]
      exact Or.inl rfl
  rw [List.foldl_cons]
  rcases hline with h | h <;> rw [h]
  · rcases st with ⟨b, m, e⟩
    exact foldl_processLine_buf_msgs ls b m (e ++ [.logParseError]) e
  · exact ⟨rfl, rfl⟩

/-- C3 witness: a malformed frame interleaved before a valid frame
leaves the final buffer and message list exactly as without it. -/
theorem malformed_frame_skipped_witness :
    ("data: ".data.isPrefixOf "data: \x7boops".data = true) ∧
    (extractContent ("data: \x7boops".data.drop 6) = .error ()) ∧
    ((("data: \x7boops".data ::
        ["data: \x7b\"choices\":[\x7b\"delta\":\x7b\"content\":\"lo\"\x7d\x7d]\x7d".data]).foldl
        processLine ⟨"Hel", [placeholderAssistant], []⟩).buf =
      (["data: \x7b\"choices\":[\x7b\"delta\":\x7b\"content\":\"lo\"\x7d\x7d]\x7d".data].foldl
        processLine ⟨"Hel", [placeholderAssistant], []⟩).buf) :=
  ⟨rfl, rfl,
    (malformed_frame_skipped ⟨"Hel", [placeholderAssistant], []⟩
      "data: \x7boops".data rfl rfl
      ["data: \x7b\"choices\":[\x7b\"delta\":\x7b\"content\":\"lo\"\x7d\x7d]\x7d".data]).1⟩

/-- C5 counterexample: the [DONE] sentinel does not end the stream.  A
frame delivered after the sentinel is still extracted and appended: the
code skips the sentinel line with continue and keeps reading, so the
accumulated buffer becomes X and an update is emitted for the later
frame. -/
theorem sentinel_does_not_end_stream :
    (handleStream [placeholderAssistant]
      ⟨["data: [DONE]\ndata: \x7b\"choices\":[\x7b\"delta\":\x7b\"content\":\"X\"\x7d\x7d]\x7d\n"],
        false⟩ ⟨false, none⟩).buf = "X" ∧
    updateBuffers (handleStream [placeholderAssistant]
      ⟨["data: [DONE]\ndata: \x7b\"choices\":[\x7b\"delta\":\x7b\"content\":\"X\"\x7d\x7d]\x7d\n"],
        false⟩ ⟨false, none⟩).events = ["X"] :=
  ⟨rfl, rfl⟩

/-- C5 amended: a [DONE] frame is never treated as content — it is not
appended to the buffer and no update event is emitted for it — but it
does not terminate the read loop: processing simply continues with the
remaining lines, and the stream ends only on source exhaustion. -/
theorem sentinel_skipped_not_content (st : StreamState)
    (ls : List (List Char)) :
    ("data: [DONE]".data :: ls).foldl processLine st =
      ls.foldl processLine st := rfl

/-- C6: on the three reference frames the reducer emits exactly two
update events carrying the buffers Hel and Hello in that order — each
followed by its persist and scroll calls — and completes with final
buffer Hello. -/
theorem reference_example_trace :
    updateBuffers (handleStream [placeholderAssistant]
      ⟨["data: \x7b\"choices\":[\x7b\"delta\":\x7b\"content\":\"Hel\"\x7d\x7d]\x7d\ndata: \x7b\"choices\":[\x7b\"delta\":\x7b\"content\":\"lo\"\x7d\x7d]\x7d\ndata: [DONE]\n"],
        false⟩ ⟨false, none⟩).events = ["Hel", "Hello"] ∧
    (handleStream [placeholderAssistant]
      ⟨["data: \x7b\"choices\":[\x7b\"delta\":\x7b\"content\":\"Hel\"\x7d\x7d]\x7d\ndata: \x7b\"choices\":[\x7b\"delta\":\x7b\"content\":\"lo\"\x7d\x7d]\x7d\ndata: [DONE]\n"],
        false⟩ ⟨false, none⟩).buf = "Hello" ∧
    (handleStream [placeholderAssistant]
      ⟨["data: \x7b\"choices\":[\x7b\"delta\":\x7b\"content\":\"Hel\"\x7d\x7d]\x7d\ndata: \x7b\"choices\":[\x7b\"delta\":\x7b\"content\":\"lo\"\x7d\x7d]\x7d\ndata: [DONE]\n"],
        false⟩ ⟨false, none⟩).events =
      [.update "Hel", .save [{ role := "assistant", content := "Hel" }],
       .scroll,
       .update "Hello", .save [{ role := "assistant", content := "Hello" }],
       .scroll,
       .tts "Hello"] :=
  ⟨rfl, rfl, rfl⟩

/-- C9 counterexample: the audio synthesis on the final text is
performed by the reducer itself, not left to the caller: on source
exhaustion handleStream awaits textToSpeech on the accumulated buffer,
so its own trace ends with a text-to-speech call and — when the speech
fetch succeeds and the audio element is present — its own return value
already carries the audio url and playing flag that call wrote into the
last message. -/
theorem reducer_triggers_tts_itself :
    (handleStream [placeholderAssistant]
      ⟨["data: \x7b\"choices\":[\x7b\"delta\":\x7b\"content\":\"Hi\"\x7d\x7d]\x7d\n"],
        false⟩ ⟨true, some "blob:audio-1"⟩).events =
      [.update "Hi", .save [{ role := "assistant", content := "Hi" }],
       .scroll, .tts "Hi"] ∧
    (handleStream [placeholderAssistant]
      ⟨["data: \x7b\"choices\":[\x7b\"delta\":\x7b\"content\":\"Hi\"\x7d\x7d]\x7d\n"],
        false⟩ ⟨true, some "blob:audio-1"⟩).msgs =
      [{ role := "assistant", content := "Hi", isPlaying := some true,
         audioUrl := some "blob:audio-1" }] :=
  ⟨rfl, rfl⟩

/-- C9 amended: when the source signals end-of-data the reducer makes
no further change to the accumulated buffer and finishes with the last
accumulated buffer, but it itself awaits the audio-synthesis side
effect (textToSpeech on the final text) before returning — a call that
can update the playback flags and audio resource reference of the
messages, though never a role or a text content — rather than leaving
post-completion side effects to the caller. -/
theorem completion_appends_only_tts_event (msgs : List ChatMessage)
    (chunks : List String) (env : TtsEnv) :
    (handleStream msgs ⟨chunks, false⟩ env).buf =
      (chunks.foldl processChunk ⟨"", msgs, []⟩).buf ∧
    (handleStream msgs ⟨chunks, false⟩ env).events =
      (chunks.foldl processChunk ⟨"", msgs, []⟩).events ++
        [.tts (chunks.foldl processChunk ⟨"", msgs, []⟩).buf] ∧
    (handleStream msgs ⟨chunks, false⟩ env).msgs =
      textToSpeech env
        ((chunks.foldl processChunk ⟨"", msgs, []⟩).msgs.length - 1)
        (chunks.foldl processChunk ⟨"", msgs, []⟩).msgs ∧
    (handleStream msgs ⟨chunks, false⟩ env).msgs.map (fun m => m.content) =
      (chunks.foldl processChunk ⟨"", msgs, []⟩).msgs.map
        (fun m => m.content) :=
  ⟨rfl, rfl, rfl,
    map_content_of_roleContent (textToSpeech_roleContent env _ _)⟩

/-- C10: a well-formed data frame whose extracted content is undefined,
null, or the empty string changes nothing: no update event, no persist,
no scroll, and the buffer and message list are untouched. -/
theorem falsy_content_frame_is_noop (st : StreamState) (l : List Char)
    (hpre : "data: ".data.isPrefixOf l = true)
    (hok : extractContent (l.drop 6) = .ok none ∨
           extractContent (l.drop 6) = .ok (some .null) ∨
           extractContent (l.drop 6) = .ok (some (.str ""))) :
    processLine st l = st := by
  have hnd : l.drop 6 ≠ "[DONE]".data := by
    intro hd
    rw [hd] at hok
    have hdone : extractContent "[DONE]".data = .error () := rfl
    rcases hok with h | h | h <;> rw [hdone] at h <;> simp at h
  unfold processLine
  dsimp only
  rw [if_pos hpre, if_neg hnd]
  rcases hok with h | h | h <;> rw [h] <;> rfl

/-- C10 witness: the empty-content frame of the streaming API leaves
the state unchanged. -/
theorem falsy_content_frame_is_noop_witness :
    ("data: ".data.isPrefixOf
      "data: \x7b\"choices\":[\x7b\"delta\":\x7b\"content\":\"\"\x7d\x7d]\x7d".data = true) ∧
    (extractContent
      ("data: \x7b\"choices\":[\x7b\"delta\":\x7b\"content\":\"\"\x7d\x7d]\x7d".data.drop 6) =
      .ok (some (.str ""))) ∧
    processLine ⟨"Hel", [placeholderAssistant], []⟩
      "data: \x7b\"choices\":[\x7b\"delta\":\x7b\"content\":\"\"\x7d\x7d]\x7d".data =
      ⟨"Hel", [placeholderAssistant], []⟩ :=
  ⟨rfl, rfl,
    falsy_content_frame_is_noop ⟨"Hel", [placeholderAssistant], []⟩
      "data: \x7b\"choices\":[\x7b\"delta\":\x7b\"content\":\"\"\x7d\x7d]\x7d".data
      rfl (Or.inr (Or.inr rfl))⟩

/-- C4: every update event emitted by the stream reducer carries the
entire accumulated buffer so far, the sequence of emitted buffers grows
monotonically — each update buffer is the previous one extended by the
newly extracted delta, starting from the empty buffer — and the last
emitted buffer is exactly the final accumulated buffer. -/
theorem updates_carry_full_growing_buffer (msgs : List ChatMessage)
    (src : Source) (env : TtsEnv) :
    GrowingFrom "" (updateBuffers (handleStream msgs src env).events) ∧
    lastOr "" (updateBuffers (handleStream msgs src env).events) =
      (handleStream msgs src env).buf := by
  have step : ∀ (st : StreamState) (l : List Char),
      (GrowingFrom "" (updateBuffers st.events) ∧
        lastOr "" (updateBuffers st.events) = st.buf) →
      (GrowingFrom "" (updateBuffers (processLine st l).events) ∧
        lastOr "" (updateBuffers (processLine st l).events) =
          (processLine st l).buf) := by
    rintro st l ⟨hg, hl⟩
    rcases processLine_cases st l with hc | hc | ⟨d, hc⟩ <;> rw [hc]
    · exact ⟨hg, hl⟩
    · constructor
      · simpa [updateBuffers_append, updateBuffers] using hg
      · simpa [updateBuffers_append, updateBuffers] using hl
    · have hub : updateBuffers (st.events ++
          [.update (st.buf ++ d),
           .save (setLastContent (st.buf ++ d) st.msgs), .scroll]) =
          updateBuffers st.events ++ [st.buf ++ d] := by
        simp [updateBuffers_append, updateBuffers]
      constructor
      · dsimp only
        rw [hub]
        have hs := GrowingFrom_snoc hg d
        rwa [hl] at hs
      · dsimp only
        rw [hub, lastOr_snoc]
  have hmain := foldl_processChunk_invariant step src.chunks
    ⟨"", msgs, []⟩ ⟨.nil "", rfl⟩
  unfold handleStream
  dsimp only
  split
  · constructor
    · simpa [updateBuffers_append, updateBuffers] using hmain.1
    · simpa [updateBuffers_append, updateBuffers] using hmain.2
  · constructor
    · simpa [updateBuffers_append, updateBuffers] using hmain.1
    · simpa [updateBuffers_append, updateBuffers] using hmain.2

/-- C7: in every run of the reducer on a nonempty message list, each
update of the message content is immediately followed by exactly two
external calls — a persist of the current message list (whose last
message now carries the updated buffer) and a scroll request — and
persist and scroll happen nowhere else in the trace. -/
theorem update_persists_and_scrolls (msgs : List ChatMessage)
    (src : Source) (env : TtsEnv) (h : msgs ≠ []) :
    PersistScrollDisciplined (handleStream msgs src env).events := by
  have step : ∀ (st : StreamState) (l : List Char),
      (st.msgs ≠ [] ∧ PersistScrollDisciplined st.events) →
      ((processLine st l).msgs ≠ [] ∧
        PersistScrollDisciplined (processLine st l).events) := by
    rintro st l ⟨hne, hd⟩
    rcases processLine_cases st l with hc | hc | ⟨d, hc⟩ <;> rw [hc]
    · exact ⟨hne, hd⟩
    · exact ⟨hne, PersistScrollDisciplined_append hd (.logParse [] .nil)⟩
    · refine ⟨setLastContent_ne_nil _ _ hne, ?_⟩
      exact PersistScrollDisciplined_append hd
        (.upd _ _ [] (lastContent_setLastContent _ _ hne) .nil)
  have hmain := foldl_processChunk_invariant step src.chunks
    ⟨"", msgs, []⟩ ⟨h, .nil⟩
  unfold handleStream
  dsimp only
  split
  · exact PersistScrollDisciplined_append hmain.2 (.logRead [] .nil)
  · exact PersistScrollDisciplined_append hmain.2 (.tts _ [] .nil)

/-- C7 witness: the discipline holds on the concrete reference run. -/
theorem update_persists_and_scrolls_witness :
    [placeholderAssistant] ≠ ([] : List ChatMessage) ∧
    PersistScrollDisciplined (handleStream [placeholderAssistant]
      ⟨["data: \x7b\"choices\":[\x7b\"delta\":\x7b\"content\":\"Hi\"\x7d\x7d]\x7d\n"],
        false⟩ ⟨false, none⟩).events :=
  ⟨List.cons_ne_nil _ _,
    update_persists_and_scrolls [placeholderAssistant]
      ⟨["data: \x7b\"choices\":[\x7b\"delta\":\x7b\"content\":\"Hi\"\x7d\x7d]\x7d\n"],
        false⟩ ⟨false, none⟩ (List.cons_ne_nil _ _)⟩

/-- C8: the reducer never adds or removes messages, never modifies the
role of any message, and never modifies the text content of any message
before the last one: as far as roles and contents are concerned the
list evolves only by in-place mutation of the content of its last
(assistant) message.  (The completion-time audio call may update the
playback flags and audio resource reference — fields outside the roles
and contents the claim speaks of.) -/
theorem append_only_except_last_content (msgs : List ChatMessage)
    (src : Source) (env : TtsEnv) :
    (handleStream msgs src env).msgs.length = msgs.length ∧
    (handleStream msgs src env).msgs.map (fun m => m.role) =
      msgs.map (fun m => m.role) ∧
    (handleStream msgs src env).msgs.dropLast.map (fun m => m.content) =
      msgs.dropLast.map (fun m => m.content) := by
  have step : ∀ (st : StreamState) (l : List Char),
      (st.msgs.length = msgs.length ∧
        st.msgs.map (fun m => m.role) = msgs.map (fun m => m.role) ∧
        st.msgs.dropLast.map (fun m => m.content) =
          msgs.dropLast.map (fun m => m.content)) →
      ((processLine st l).msgs.length = msgs.length ∧
        (processLine st l).msgs.map (fun m => m.role) =
          msgs.map (fun m => m.role) ∧
        (processLine st l).msgs.dropLast.map (fun m => m.content) =
          msgs.dropLast.map (fun m => m.content)) := by
    rintro st l ⟨h1, h2, h3⟩
    rcases processLine_cases st l with hc | hc | ⟨d, hc⟩ <;> rw [hc]
    · exact ⟨h1, h2, h3⟩
    · exact ⟨h1, h2, h3⟩
    · refine ⟨(setLastContent_length _ _).trans h1,
        (setLastContent_map_role _ _).trans h2, ?_⟩
      rw [setLastContent_dropLast]
      exact h3
  have hmain := foldl_processChunk_invariant step src.chunks
    ⟨"", msgs, []⟩ ⟨rfl, rfl, rfl⟩
  unfold handleStream
  dsimp only
  split
  · exact hmain
  · have htts := textToSpeech_roleContent env
      ((src.chunks.foldl processChunk ⟨"", msgs, []⟩).msgs.length - 1)
      (src.chunks.foldl processChunk ⟨"", msgs, []⟩).msgs
    exact ⟨(length_of_roleContent htts).trans hmain.1,
      (map_role_of_roleContent htts).trans hmain.2.1,
      (dropLast_map_content_of_roleContent htts).trans hmain.2.2⟩

end ChatWindow
